import Mathlib

/-!
Verification of the chunking / dispatch / assembly pipeline of the
`summarize` repository (`src/summarizer/api.py`, with twin definitions in
`src/summarizer/core.py`).

Python strings are modelled as `List Char` (`PyStr`); Python `str.split`
with a one-character separator, `str.strip`, `str.join`, `int(...)`,
dictionary `.get`, list indexing, exceptions (`Except`), the per-chunk
retry loop and the `asyncio.gather` result assembly are all embedded
explicitly below, function by function, following the Python source.
-/

/-- Python strings are modelled as lists of characters. -/
abbrev PyStr := List Char

namespace Summarize

/-- Python `s.split(sep)` for a one-character separator: splits at every
occurrence of `sep`, keeping empty pieces, and `"".split(sep) = [""]`. -/
def pySplit (sep : Char) : PyStr → List PyStr
  | [] => [[]]
  | c :: cs =>
    match pySplit sep cs with
    | [] => []
    | p :: ps => if c = sep then [] :: p :: ps else (c :: p) :: ps

/-- Python `sep.join(pieces)` for a one-character separator. -/
def joinWith (sep : Char) : List PyStr → PyStr
  | [] => []
  | [p] => p
  | p :: q :: ps => p ++ sep :: joinWith sep (q :: ps)

@[simp] theorem joinWith_nil (sep : Char) : joinWith sep [] = [] := rfl

@[simp] theorem joinWith_singleton (sep : Char) (p : PyStr) :
    joinWith sep [p] = p := rfl

theorem joinWith_cons_cons (sep : Char) (p q : PyStr) (ps : List PyStr) :
    joinWith sep (p :: q :: ps) = p ++ sep :: joinWith sep (q :: ps) := rfl

theorem pySplit_ne_nil (sep : Char) (s : PyStr) : pySplit sep s ≠ [] := by
  induction s with
  | nil => simp [pySplit]
  | cons c cs ih =>
    simp only [pySplit]
    cases h : pySplit sep cs with
    | nil => exact absurd h ih
    | cons p ps =>
      by_cases hc : c = sep <;> simp [hc]

theorem joinWith_pySplit (sep : Char) (s : PyStr) :
    joinWith sep (pySplit sep s) = s := by
  induction s with
  | nil => rfl
  | cons c cs ih =>
    simp only [pySplit]
    cases h : pySplit sep cs with
    | nil => exact absurd h (pySplit_ne_nil sep cs)
    | cons p ps =>
      rw [h] at ih
      by_cases hc : c = sep
      · subst hc
        simp only [if_pos rfl]
        cases ps with
        | nil => simpa [joinWith] using ih
        | cons q qs => simpa [joinWith] using ih
      · simp only [if_neg hc]
        cases ps with
        | nil => simpa [joinWith] using ih
        | cons q qs => simpa [joinWith] using ih

theorem joinWith_append (sep : Char) (a b : List PyStr)
    (ha : a ≠ []) (hb : b ≠ []) :
    joinWith sep (a ++ b) = joinWith sep a ++ sep :: joinWith sep b := by
  induction a with
  | nil => exact absurd rfl ha
  | cons x xs ih =>
    cases xs with
    | nil =>
      cases b with
      | nil => exact absurd rfl hb
      | cons y ys => rfl
    | cons y ys =>
      have h2 : joinWith sep (y :: (ys ++ b))
          = joinWith sep (y :: ys) ++ sep :: joinWith sep b := by
        rw [← List.cons_append]
        exact ih (by simp)
      rw [List.cons_append, List.cons_append, joinWith_cons_cons, h2,
        joinWith_cons_cons]
      simp

/-- The greedy first pass of `chunk_text` (api.py lines 33-44): the Python
`for para in paragraphs` loop over the remaining paragraphs, carrying the
accumulated `current_chunk` and `current_size`; followed by the trailing
`if current_chunk: chunks.append('\n'.join(current_chunk))`. -/
def greedyPass (chunkSize : Nat) : List PyStr → List PyStr → Nat → List PyStr
  | [], currentChunk, _ =>
    if currentChunk = [] then [] else [joinWith '\n' currentChunk]
  | para :: rest, currentChunk, currentSize =>
    let paraSize := para.length + 1
    if currentSize + paraSize > chunkSize ∧ currentChunk ≠ [] then
      joinWith '\n' currentChunk :: greedyPass chunkSize rest [para] paraSize
    else
      greedyPass chunkSize rest (currentChunk ++ [para]) (currentSize + paraSize)

/-- The merge second pass of `chunk_text` (api.py lines 47-62).  The Python
guard `temp_size + len(chunk) < chunk_size/2` uses float division; for
integers it is equivalent to `2 * (temp_size + len(chunk)) < chunk_size`. -/
def mergePass (chunkSize : Nat) : List PyStr → List PyStr → Nat → List PyStr
  | [], tempChunk, _ =>
    if tempChunk = [] then [] else [joinWith '\n' tempChunk]
  | chunk :: rest, tempChunk, tempSize =>
    if 2 * (tempSize + chunk.length) < chunkSize then
      mergePass chunkSize rest (tempChunk ++ [chunk]) (tempSize + chunk.length)
    else
      (if tempChunk = [] then [] else [joinWith '\n' tempChunk])
        ++ mergePass chunkSize rest [chunk] chunk.length

/-- `chunk_text(text, chunk_size)` from api.py lines 13-64 (textually the
same function appears in core.py lines 293-336): clamp the chunk size to a
1000-character floor, split into paragraphs on `'\n'`, run the greedy
accumulation pass, then the small-chunk merge pass. -/
def chunk_text (text : PyStr) (chunkSize : Nat) : List PyStr :=
  let cs := if chunkSize < 1000 then 1000 else chunkSize
  mergePass cs (greedyPass cs (pySplit '\n' text) [] 0) [] 0

theorem greedyPass_ne_nil (cs : Nat) (ps : List PyStr) (cur : List PyStr)
    (sz : Nat) (h : cur ≠ []) : greedyPass cs ps cur sz ≠ [] := by
  induction ps generalizing cur sz with
  | nil => simp [greedyPass, h]
  | cons p rest ih =>
    simp only [greedyPass]
    by_cases hc : sz + (p.length + 1) > cs ∧ cur ≠ []
    · simp only [if_pos hc]
      simp
    · simp only [if_neg hc]
      exact ih (cur ++ [p]) _ (by simp)

theorem joinWith_greedyPass (cs : Nat) (ps : List PyStr) (cur : List PyStr)
    (sz : Nat) (h : cur ≠ []) :
    joinWith '\n' (greedyPass cs ps cur sz) = joinWith '\n' (cur ++ ps) := by
  induction ps generalizing cur sz with
  | nil => simp [greedyPass, h]
  | cons p rest ih =>
    simp only [greedyPass]
    by_cases hc : sz + (p.length + 1) > cs ∧ cur ≠ []
    · simp only [if_pos hc]
      have hne : greedyPass cs rest [p] (p.length + 1) ≠ [] :=
        greedyPass_ne_nil cs rest [p] _ (by simp)
      cases hg : greedyPass cs rest [p] (p.length + 1) with
      | nil => exact absurd hg hne
      | cons g gs =>
        have ihp := ih [p] (p.length + 1) (by simp)
        rw [hg] at ihp
        calc joinWith '\n' (joinWith '\n' cur :: g :: gs)
            = joinWith '\n' cur ++ '\n' :: joinWith '\n' (g :: gs) := by
              simp [joinWith]
          _ = joinWith '\n' cur ++ '\n' :: joinWith '\n' ([p] ++ rest) := by
              rw [ihp]
          _ = joinWith '\n' (cur ++ ([p] ++ rest)) := by
              rw [joinWith_append '\n' cur ([p] ++ rest) h (by simp)]
          _ = joinWith '\n' (cur ++ p :: rest) := by simp
    · simp only [if_neg hc]
      rw [ih (cur ++ [p]) _ (by simp)]
      simp

theorem mergePass_ne_nil (cs : Nat) (chunks : List PyStr) (temp : List PyStr)
    (sz : Nat) (h : temp ≠ []) : mergePass cs chunks temp sz ≠ [] := by
  induction chunks generalizing temp sz with
  | nil => simp [mergePass, h]
  | cons c rest ih =>
    simp only [mergePass]
    by_cases hc : 2 * (sz + c.length) < cs
    · simp only [if_pos hc]
      exact ih (temp ++ [c]) _ (by simp)
    · simp only [if_neg hc]
      intro hco
      rcases List.append_eq_nil.mp hco with ⟨-, h2⟩
      exact ih [c] _ (by simp) h2

theorem joinWith_mergePass (cs : Nat) (chunks : List PyStr)
    (temp : List PyStr) (sz : Nat) :
    joinWith '\n' (mergePass cs chunks temp sz) = joinWith '\n' (temp ++ chunks) := by
  induction chunks generalizing temp sz with
  | nil => by_cases h : temp = [] <;> simp [mergePass, h]
  | cons c rest ih =>
    simp only [mergePass]
    by_cases hc : 2 * (sz + c.length) < cs
    · simp only [if_pos hc]
      rw [ih (temp ++ [c]) _]
      simp
    · simp only [if_neg hc]
      by_cases ht : temp = []
      · subst ht
        simp only [List.nil_append, if_true]
        rw [ih [c] c.length]
        simp
      · simp only [if_neg ht]
        have hne : mergePass cs rest [c] c.length ≠ [] :=
          mergePass_ne_nil cs rest [c] _ (by simp)
        cases hm : mergePass cs rest [c] c.length with
        | nil => exact absurd hm hne
        | cons m ms =>
          have ihc := ih [c] c.length
          rw [hm] at ihc
          calc joinWith '\n' ([joinWith '\n' temp] ++ m :: ms)
              = joinWith '\n' temp ++ '\n' :: joinWith '\n' (m :: ms) := by
                simp [joinWith]
            _ = joinWith '\n' temp ++ '\n' :: joinWith '\n' ([c] ++ rest) := by
                rw [ihc]
            _ = joinWith '\n' (temp ++ ([c] ++ rest)) := by
                rw [joinWith_append '\n' temp ([c] ++ rest) ht (by simp)]
            _ = joinWith '\n' (temp ++ c :: rest) := by simp

/-- C1: for every input text and every target size at or above the
1000-character clamp floor, joining the chunks returned by `chunk_text`
with `'\n'` reproduces the original text exactly. -/
theorem chunk_text_roundtrip (text : PyStr) (sz : Nat) (h : 1000 ≤ sz) :
    joinWith '\n' (chunk_text text sz) = text := by
  unfold chunk_text
  rw [joinWith_mergePass]
  cases hs : pySplit '\n' text with
  | nil => exact absurd hs (pySplit_ne_nil '\n' text)
  | cons q qs =>
    have h1 : greedyPass (if sz < 1000 then 1000 else sz) (q :: qs) [] 0
        = greedyPass (if sz < 1000 then 1000 else sz) qs [q] (q.length + 1) := by
      simp [greedyPass]
    rw [h1, List.nil_append, joinWith_greedyPass _ qs [q] _ (by simp)]
    have := joinWith_pySplit '\n' text
    rw [hs] at this
    simpa using this

/-- Witness for C1 at a concrete input. -/
theorem chunk_text_roundtrip_witness :
    joinWith '\n' (chunk_text ("ab\ncd").data 1000) = ("ab\ncd").data :=
  chunk_text_roundtrip ("ab\ncd").data 1000 (by decide)

theorem joinWith_ne_nil (sep : Char) (l : List PyStr) (hl : l ≠ [])
    (he : ∀ p ∈ l, p ≠ []) : joinWith sep l ≠ [] := by
  match l with
  | [] => exact absurd rfl hl
  | [p] => simpa using he p (by simp)
  | p :: q :: ps =>
    rw [joinWith_cons_cons]
    rcases p with - | ⟨c, cs⟩
    · simp
    · simp

theorem greedyPass_all_ne_nil (cs : Nat) :
    ∀ (ps cur : List PyStr) (sz : Nat),
      (∀ p ∈ ps, p ≠ []) → (∀ p ∈ cur, p ≠ []) →
      ∀ c ∈ greedyPass cs ps cur sz, c ≠ []
  | [], cur, sz, _, hcur, c, hc => by
    by_cases h : cur = []
    · simp [greedyPass, h] at hc
    · simp only [greedyPass, if_neg h, List.mem_singleton] at hc
      subst hc
      exact joinWith_ne_nil '\n' cur h hcur
  | p :: rest, cur, sz, hps, hcur, c, hc => by
    simp only [greedyPass] at hc
    by_cases hb : sz + (p.length + 1) > cs ∧ cur ≠ []
    · rw [if_pos hb] at hc
      rcases List.mem_cons.mp hc with h1 | h2
      · subst h1
        exact joinWith_ne_nil '\n' cur hb.2 hcur
      · exact greedyPass_all_ne_nil cs rest [p] (p.length + 1)
          (fun q hq => hps q (List.mem_cons_of_mem _ hq))
          (fun q hq => by
            simp only [List.mem_singleton] at hq
            subst hq
            exact hps _ (List.mem_cons_self _ _)) c h2
    · rw [if_neg hb] at hc
      exact greedyPass_all_ne_nil cs rest (cur ++ [p]) (sz + (p.length + 1))
        (fun q hq => hps q (List.mem_cons_of_mem _ hq))
        (fun q hq => by
          rcases List.mem_append.mp hq with h1 | h2
          · exact hcur q h1
          · simp only [List.mem_singleton] at h2
            subst h2
            exact hps _ (List.mem_cons_self _ _)) c hc

theorem mergePass_all_ne_nil (cs : Nat) :
    ∀ (chunks temp : List PyStr) (sz : Nat),
      (∀ c ∈ chunks, c ≠ []) → (∀ c ∈ temp, c ≠ []) →
      ∀ c ∈ mergePass cs chunks temp sz, c ≠ []
  | [], temp, sz, _, htemp, c, hc => by
    by_cases h : temp = []
    · simp [mergePass, h] at hc
    · simp only [mergePass, if_neg h, List.mem_singleton] at hc
      subst hc
      exact joinWith_ne_nil '\n' temp h htemp
  | ch :: rest, temp, sz, hch, htemp, c, hc => by
    simp only [mergePass] at hc
    by_cases hb : 2 * (sz + ch.length) < cs
    · rw [if_pos hb] at hc
      exact mergePass_all_ne_nil cs rest (temp ++ [ch]) (sz + ch.length)
        (fun q hq => hch q (List.mem_cons_of_mem _ hq))
        (fun q hq => by
          rcases List.mem_append.mp hq with h1 | h2
          · exact htemp q h1
          · simp only [List.mem_singleton] at h2
            subst h2
            exact hch _ (List.mem_cons_self _ _)) c hc
    · rw [if_neg hb] at hc
      rcases List.mem_append.mp hc with h1 | h2
      · by_cases ht : temp = []
        · simp [ht] at h1
        · rw [if_neg ht] at h1
          simp only [List.mem_singleton] at h1
          subst h1
          exact joinWith_ne_nil '\n' temp ht htemp
      · exact mergePass_all_ne_nil cs rest [ch] ch.length
          (fun q hq => hch q (List.mem_cons_of_mem _ hq))
          (fun q hq => by
            simp only [List.mem_singleton] at hq
            subst hq
            exact hch _ (List.mem_cons_self _ _)) c h2

theorem chunk_text_empty_input (sz : Nat) : chunk_text [] sz = [[]] := by
  show mergePass (if sz < 1000 then 1000 else sz)
      (greedyPass (if sz < 1000 then 1000 else sz) (pySplit '\n' ([] : PyStr))
        [] 0) [] 0 = [[]]
  set cs := if sz < 1000 then 1000 else sz with hcs
  have hpos : 0 < cs := by rw [hcs]; split <;> omega
  have hsp : pySplit '\n' ([] : PyStr) = [[]] := rfl
  rw [hsp]
  have hg : greedyPass cs [[]] [] 0 = [[]] := by
    have h1 : greedyPass cs [[]] [] 0
        = greedyPass cs [] [[]] (List.length ([] : PyStr) + 1) := by
      simp [greedyPass]
    rw [h1]
    simp [greedyPass]
  rw [hg]
  simp [mergePass, hpos]

set_option maxRecDepth 100000 in
/-- C7 counterexample: for the non-empty input consisting of a newline
followed by 999 copies of `X`, `chunk_text` at target size 1000 produces
an empty chunk, refuting the claim that every chunk of a non-empty input
is non-empty. -/
theorem chunk_text_empty_chunk_cex :
    ('\n' :: List.replicate 999 'X') ≠ ([] : PyStr) ∧
    [] ∈ chunk_text ('\n' :: List.replicate 999 'X') 1000 := by
  constructor
  · simp
  · rw [show chunk_text ('\n' :: List.replicate 999 'X') 1000
        = [[], List.replicate 999 'X'] from by decide]
    simp

/-- C7 amended: if every newline-separated paragraph of the input is
non-empty, then every chunk produced by `chunk_text` is non-empty; and for
the empty input string, `chunk_text` returns exactly one chunk containing
the empty string.  (The unamended claim fails when an empty paragraph
immediately precedes a paragraph longer than the clamped target size; see
the counterexample.) -/
theorem chunk_text_chunks_nonempty (text : PyStr) (sz : Nat)
    (h : ∀ p ∈ pySplit '\n' text, p ≠ []) :
    (∀ c ∈ chunk_text text sz, c ≠ []) ∧ chunk_text [] sz = [[]] := by
  refine ⟨?_, chunk_text_empty_input sz⟩
  intro c hc
  unfold chunk_text at hc
  exact mergePass_all_ne_nil _ _ [] 0
    (greedyPass_all_ne_nil _ _ [] 0 h (by simp)) (by simp) c hc

/-- Witness for C7 at a concrete input. -/
theorem chunk_text_chunks_nonempty_witness :
    (∀ p ∈ pySplit '\n' ("ab\ncd").data, p ≠ ([] : PyStr)) ∧
    ((∀ c ∈ chunk_text ("ab\ncd").data 2000, c ≠ []) ∧
      chunk_text [] 2000 = [[]]) :=
  ⟨by decide, chunk_text_chunks_nonempty ("ab\ncd").data 2000 (by decide)⟩

/-- Python `str.isspace` for the characters `str.strip()` removes, on the
ASCII range used by this pipeline. -/
def pyIsSpace (c : Char) : Bool :=
  c == ' ' || c == '\t' || c == '\n' || c == '\r' || c == '\x0b' || c == '\x0c'

/-- Python `s.strip()`: remove leading and trailing whitespace. -/
def pyStrip (s : PyStr) : PyStr :=
  ((s.dropWhile pyIsSpace).reverse.dropWhile pyIsSpace).reverse

/-- Match of the compiled pattern `(\d{2}:\d{2}:\d{2})` (api.py line 78)
anchored at the start of `s`, returning the eight matched characters. -/
def matchTimestampAt : PyStr → Option PyStr
  | d1 :: d2 :: c1 :: d3 :: d4 :: c2 :: d5 :: d6 :: _ =>
    if d1.isDigit && d2.isDigit && c1 == ':' && d3.isDigit && d4.isDigit
        && c2 == ':' && d5.isDigit && d6.isDigit then
      some [d1, d2, c1, d3, d4, c2, d5, d6]
    else none
  | _ => none

/-- Python `timestamp_pattern.search(chunk)` for that fixed pattern: the
leftmost occurrence, scanning start positions left to right. -/
def searchTimestamp : PyStr → Option PyStr
  | [] => none
  | c :: cs =>
    match matchTimestampAt (c :: cs) with
    | some t => some t
    | none => searchTimestamp cs

/-- `extract_and_clean_chunks(text, chunk_size)` from api.py lines 67-87:
chunk the text, then tag each chunk with the first `HH:MM:SS` occurrence
(`match.group(1) if match else ""`) and strip the chunk text. -/
def extract_and_clean_chunks (text : PyStr) (chunkSize : Nat) :
    List (PyStr × PyStr) :=
  (chunk_text text chunkSize).map fun chunk =>
    ((searchTimestamp chunk).getD [], pyStrip chunk)

/-- C8: `extract_and_clean_chunks` tags each chunk with its first
`HH:MM:SS` occurrence, or an empty timestamp when none is found: the two
concrete segmentations named by the specification. -/
theorem extract_and_clean_chunks_timestamps :
    extract_and_clean_chunks ("00:01:30 hello\n00:02:45 world").data 10000
      = [(("00:01:30").data, ("00:01:30 hello\n00:02:45 world").data)] ∧
    extract_and_clean_chunks ("no timestamps here").data 10000
      = [([], ("no timestamps here").data)] := by
  constructor <;> decide

/-- Python `int(s)` on ASCII input: optional surrounding whitespace, an
optional sign, then one or more decimal digits.  Returns `none` where
`int()` raises `ValueError`.  (CPython's underscore digit grouping and
non-ASCII digits do not occur in this pipeline and are not modelled.) -/
def pyInt (s : PyStr) : Option Int :=
  let core : PyStr → Option Int := fun ds =>
    if !ds.isEmpty && ds.all Char.isDigit then
      some (ds.foldl (fun a c => a * 10 + ((c.toNat : Int) - ('0'.toNat : Int))) 0)
    else none
  match pyStrip s with
  | '-' :: ds => (core ds).map (fun n => -n)
  | '+' :: ds => core ds
  | ds => core ds

/-- Python `str(n)` for an integer. -/
def pyIntStr (n : Int) : PyStr := (toString n).data

/-- `format_youtube_timestamp(timestamp, url)` from api.py lines 292-299:
`hours, minutes, seconds = map(int, timestamp.split(':'))` inside a
`try/except` that returns the timestamp unchanged when the three-way
unpacking or any `int()` conversion fails; otherwise renders
`f"{timestamp} - {url}&t={total_seconds}"`. -/
def format_youtube_timestamp (timestamp url : PyStr) : PyStr :=
  match pySplit ':' timestamp with
  | [h, m, s] =>
    match pyInt h, pyInt m, pyInt s with
    | some hours, some minutes, some seconds =>
      timestamp ++ (" - ").data ++ url ++ ("&t=").data
        ++ pyIntStr (hours * 3600 + minutes * 60 + seconds)
    | _, _, _ => timestamp
  | _ => timestamp

/-- Python `"\n\n".join(pieces)` (and any other multi-character join). -/
def joinWithStr (sep : PyStr) : List PyStr → PyStr
  | [] => []
  | [p] => p
  | p :: q :: ps => p ++ sep ++ joinWithStr sep (q :: ps)

/-- The configuration keys read by the assembly stage:
`config.get("source_url_or_path", "")` and `config.get("type_of_source")`
compared against `"YouTube Video"`. -/
structure AssembleConfig where
  source_url_or_path : PyStr
  type_of_source : PyStr

/-- `format_summary_with_timestamps(summaries, config)` from api.py lines
302-327: each `(timestamp, summary)` with a truthy (non-empty) timestamp
contributes `f"{timestamp_text}\n\n{summary}"`, where the timestamp is
deep-linked for YouTube sources; untimestamped results contribute their
summary alone; pieces are joined by `"\n\n"`. -/
def format_summary_with_timestamps (summaries : List (PyStr × PyStr))
    (config : AssembleConfig) : PyStr :=
  joinWithStr ['\n', '\n'] (summaries.map fun p =>
    if p.1 ≠ [] then
      (if config.type_of_source = ("YouTube Video").data then
        format_youtube_timestamp p.1 config.source_url_or_path
      else p.1) ++ '\n' :: '\n' :: p.2
    else p.2)

/-- C9: assembling `[("00:00:05","A"), ("","B")]` for a YouTube source
with URL `url` renders the timestamped result as the timestamp, `" - "`,
the source URL and `"&t="` plus the timestamp in total seconds, renders
the untimestamped result as its text alone, and joins the pieces with a
blank line in input order. -/
theorem format_summary_youtube_example (url : PyStr) :
    format_summary_with_timestamps
        [(("00:00:05").data, ("A").data), ([], ("B").data)]
        ⟨url, ("YouTube Video").data⟩
      = ("00:00:05 - ").data ++ url ++ ("&t=5\n\nA\n\nB").data := by
  have hsplit : pySplit ':' (("00:00:05").data)
      = [("00").data, ("00").data, ("05").data] := by decide
  have h0 : pyInt (("00").data) = some 0 := by decide
  have h5 : pyInt (("05").data) = some 5 := by decide
  have hrepr : pyIntStr 5 = ['5'] := by decide
  simp [format_summary_with_timestamps, format_youtube_timestamp, hsplit,
    h0, h5, hrepr, joinWithStr]

/-- The success condition of the `try` body of `format_youtube_timestamp`:
`timestamp.split(':')` yields exactly three pieces and each parses as a
Python int. -/
def timestampParses (timestamp : PyStr) : Bool :=
  match pySplit ':' timestamp with
  | [h, m, s] => (pyInt h).isSome && (pyInt m).isSome && (pyInt s).isSome
  | _ => false

/-- C10: for every timestamp string that does not parse as exactly three
colon-separated integers, `format_youtube_timestamp` returns the timestamp
unchanged (the `except` branch) instead of raising. -/
theorem format_youtube_timestamp_malformed (timestamp url : PyStr)
    (h : timestampParses timestamp = false) :
    format_youtube_timestamp timestamp url = timestamp := by
  unfold timestampParses at h
  unfold format_youtube_timestamp
  rcases hsp : pySplit ':' timestamp with - | ⟨a, - | ⟨b, - | ⟨c, - | d⟩⟩⟩
  · rfl
  · rfl
  · rfl
  · rw [hsp] at h
    cases ha : pyInt a <;> cases hb : pyInt b <;> cases hc : pyInt c <;>
      simp [ha, hb, hc] at h ⊢
  · rfl

/-- Witness for C10 at the concrete malformed timestamps `"1:02"` and
`"bad"`. -/
theorem format_youtube_timestamp_malformed_witness :
    timestampParses ("1:02").data = false ∧
    format_youtube_timestamp ("1:02").data ("u").data = ("1:02").data ∧
    format_youtube_timestamp ("bad").data ("u").data = ("bad").data :=
  ⟨by decide,
   format_youtube_timestamp_malformed ("1:02").data ("u").data (by decide),
   format_youtube_timestamp_malformed ("bad").data ("u").data (by decide)⟩

/-- A JSON-like value as returned by `response.json()`: enough structure
for the OpenAI-style reply envelopes this pipeline reads. -/
inductive JVal where
  | str (s : PyStr)
  | arr (elems : List JVal)
  | obj (fields : List (PyStr × JVal))
  | null

/-- The Python exceptions the embedded fragments can raise. -/
inductive PyExc where
  | indexError
  | attributeError
  | keyError
  | typeError
  | apiError (msg : PyStr)
  | exception (msg : PyStr)
deriving DecidableEq

/-- Python `d.get(key, default)` on a dict modelled as an association
list (dict keys are unique, so first match suffices). -/
def dictGet (fields : List (PyStr × JVal)) (key : PyStr) (default : JVal) :
    JVal :=
  match fields.find? (fun kv => kv.1 == key) with
  | some kv => kv.2
  | none => default

/-- Python `str.lower()` on the ASCII range used here. -/
def pyLower (s : PyStr) : PyStr := s.map Char.toLower

/-- Python `s.startswith(pre)`. -/
def pyStartsWith : PyStr → PyStr → Bool
  | _, [] => true
  | [], _ :: _ => false
  | c :: cs, p :: ps => c == p && pyStartsWith cs ps

/-- Python `needle in hay` for strings: substring containment. -/
def pyContains (needle : PyStr) : PyStr → Bool
  | [] => pyStartsWith [] needle
  | c :: cs => pyStartsWith (c :: cs) needle || pyContains needle cs

/-- Python `s.rfind(sub)`: the largest start index of an occurrence of
`sub` in `s`, or `none` where Python returns `-1`. -/
def pyRfind (sub : PyStr) (s : PyStr) : Option Nat :=
  (List.range (s.length + 1)).reverse.find?
    (fun i => pyStartsWith (s.drop i) sub)

/-- Python `s.endswith(suffix)`. -/
def pyEndsWith (s suffix : PyStr) : Bool :=
  if suffix.length ≤ s.length then
    pyStartsWith (s.drop (s.length - suffix.length)) suffix
  else false

/-- The provider-specific cleanup of `parse_response_content` applied when
`"perplexity"` occurs in the lowercased base URL (api.py lines 104-115):
keep only what follows the last `"</think>"` marker, then strip leading
and trailing fenced code block markers, re-stripping whitespace after each
cut exactly as the Python slices followed by `.strip()` do. -/
def perplexityClean (content : PyStr) : PyStr :=
  let marker := ("</think>").data
  let c1 :=
    match pyRfind marker content with
    | some idx => pyStrip (content.drop (idx + marker.length))
    | none => content
  let c2 :=
    if pyStartsWith c1 (("```json").data) then
      pyStrip (c1.drop (("```json").data).length)
    else c1
  let c3 :=
    if pyStartsWith c2 (("```").data) then pyStrip (c2.drop 3)
    else c2
  if pyEndsWith c3 (("```").data) then pyStrip (c3.take (c3.length - 3))
  else c3

/-- `parse_response_content(response, base_url)` from api.py lines 90-117
(the same function appears in core.py lines 492-506), with the Python
exceptions made explicit: `response.get("choices", [{}])[0]` raises
`IndexError` on an empty `choices` list (and on an empty string, since
`""[0]` raises), `[0]` on a dict raises `KeyError`, `[0]` on `None`
raises `TypeError`, and `.get`/`.strip()` on a non-dict / non-string
raise `AttributeError`. -/
def parse_response_content (response : List (PyStr × JVal))
    (base_url : PyStr) : Except PyExc PyStr :=
  match dictGet response (("choices").data) (.arr [.obj []]) with
  | .arr [] => .error .indexError
  | .arr (.obj choiceFields :: _) =>
    match dictGet choiceFields (("message").data) (.obj []) with
    | .obj msgFields =>
      match dictGet msgFields (("content").data) (.str []) with
      | .str s =>
        let content := pyStrip s
        if pyContains (("perplexity").data) (pyLower base_url) then
          .ok (perplexityClean content)
        else .ok content
      | _ => .error .attributeError
    | _ => .error .attributeError
  | .arr (_ :: _) => .error .attributeError
  | .str [] => .error .indexError
  | .str (_ :: _) => .error .attributeError
  | .obj _ => .error .keyError
  | .null => .error .typeError

/-- C6 counterexample: an envelope whose `choices` entry is present but is
the empty list makes `parse_response_content` raise `IndexError` (Python
`[][0]`) instead of returning the empty string the claim asserts for all
content-free envelopes. -/
theorem parse_response_content_empty_choices_cex :
    parse_response_content [(("choices").data, .arr [])] [] =
      .error .indexError := rfl

/-- C6 amended: when the `choices` key is absent, or the first choice has
no `message` entry, or the message has no `content` entry,
`parse_response_content` returns the empty string and does not raise; but
for an envelope whose `choices` entry is the empty list it raises
`IndexError` (the counterexample forces this exception to be carved out of
the claim's list of absent-field envelopes). -/
theorem parse_response_content_absent (response : List (PyStr × JVal))
    (base_url : PyStr) :
    (response.find? (fun kv => kv.1 == ("choices").data) = none →
      parse_response_content response base_url = .ok []) ∧
    (∀ choiceFields rest,
      dictGet response (("choices").data) (.arr [.obj []])
          = .arr (.obj choiceFields :: rest) →
      choiceFields.find? (fun kv => kv.1 == ("message").data) = none →
      parse_response_content response base_url = .ok []) ∧
    (∀ choiceFields rest msgFields,
      dictGet response (("choices").data) (.arr [.obj []])
          = .arr (.obj choiceFields :: rest) →
      dictGet choiceFields (("message").data) (.obj []) = .obj msgFields →
      msgFields.find? (fun kv => kv.1 == ("content").data) = none →
      parse_response_content response base_url = .ok []) ∧
    (dictGet response (("choices").data) (.arr [.obj []]) = .arr [] →
      parse_response_content response base_url = .error .indexError) := by
  have hpc : perplexityClean [] = [] := by decide
  refine ⟨?_, ?_, ?_, ?_⟩
  · intro hfind
    have hdg : dictGet response (("choices").data) (.arr [.obj []])
        = .arr [.obj []] := by
      unfold dictGet
      rw [hfind]
    have hmsg : dictGet [] (("message").data) (.obj []) = .obj [] := rfl
    have hcontent : dictGet [] (("content").data) (.str []) = .str [] := rfl
    unfold parse_response_content
    rw [hdg]
    cases hb : pyContains (("perplexity").data) (pyLower base_url) <;>
      simp [hb, hpc, hmsg, hcontent, pyStrip]
  · intro choiceFields rest hdg hfind
    have hmsg : dictGet choiceFields (("message").data) (.obj [])
        = .obj [] := by
      unfold dictGet
      rw [hfind]
    have hcontent : dictGet [] (("content").data) (.str []) = .str [] := rfl
    unfold parse_response_content
    rw [hdg]
    cases hb : pyContains (("perplexity").data) (pyLower base_url) <;>
      simp [hb, hpc, hmsg, hcontent, pyStrip]
  · intro choiceFields rest msgFields hdg hmsg hfind
    have hcontent : dictGet msgFields (("content").data) (.str [])
        = .str [] := by
      unfold dictGet
      rw [hfind]
    unfold parse_response_content
    rw [hdg]
    cases hb : pyContains (("perplexity").data) (pyLower base_url) <;>
      simp [hb, hpc, hmsg, hcontent, pyStrip]
  · intro hdg
    unfold parse_response_content
    rw [hdg]

/-- Witness for C6 (amended) at a concrete envelope with no `choices`
entry. -/
theorem parse_response_content_absent_witness :
    parse_response_content [] [] = .ok [] :=
  (parse_response_content_absent [] []).1 rfl

/-- Python `str(n)` for a natural number. -/
def pyNatStr (n : Nat) : PyStr := (toString n).data

/-- Python f-string rendering of a citation entry.  The modelled endpoints
return citations as JSON strings; rendering of other JSON shapes (which
Python would `repr`) is not exercised by this pipeline. -/
def jvalText : JVal → PyStr
  | .str s => s
  | _ => []

/-- The `sources_text` accumulation of `process_chunk` (api.py lines
196-199): `"\n\nSources:\n"` followed by `f"{idx}. {citation}\n"` for each
citation, numbering from 1. -/
def sourcesText (citations : List JVal) : PyStr :=
  (("\n\nSources:\n").data) ++
    (((List.enumFrom 1 citations).map
      (fun ic : Nat × JVal =>
        pyNatStr ic.1 ++ (". ").data ++ jvalText ic.2 ++ ['\n'])).join)

/-- The body of the HTTP-200 branch of `process_chunk` (api.py lines
191-204): parse the reply envelope, append the numbered Sources footer
when `citations` is truthy, and return `""` instead when the content
contains an insufficient-context phrase.  A Python exception raised while
parsing propagates as the `.error` case. -/
def successContent (json : List (PyStr × JVal)) (base_url : PyStr) :
    Except PyExc PyStr :=
  match parse_response_content json base_url with
  | .error e => .error e
  | .ok parsed =>
    let citations := match dictGet json (("citations").data) (.arr []) with
      | .arr cs => cs
      | _ => []
    let content := if citations.isEmpty then parsed
      else parsed ++ sourcesText citations
    if pyContains (("please provide").data) (pyLower content)
        || pyContains (("please share").data) (pyLower content) then
      .ok []
    else .ok content

/-- What the network produces for one HTTP attempt of one chunk: a reply
with a status, the body text read on failure and the JSON read on success;
or a transport-level exception (any non-`APIError` exception, caught by
the generic handler); or a delivered `asyncio.CancelledError`. -/
inductive AttemptOutcome where
  | reply (status : Nat) (errorText : PyStr) (json : List (PyStr × JVal))
  | transportError
  | cancelled

/-- The observable outcome of one `process_chunk` call: the returned value
or raised exception, the number of HTTP attempts issued, and the backoff
sleeps (in seconds) in order. -/
structure ChunkRun where
  result : Except PyExc PyStr
  attempts : Nat
  sleeps : List Nat

/-- The `for attempt in range(max_retries)` loop of `process_chunk`
(api.py lines 171-218), indexed by the remaining iteration count
`remaining = max_retries - attempt`.  The Python guard
`attempt < max_retries - 1` is `0 < remaining - 1`, i.e. `1 < remaining`,
written `0 < remaining` after the pattern peels one iteration.  Falling
out of the loop returns `""` (line 218). -/
def attemptLoop (oracle : Nat → AttemptOutcome) (base_url : PyStr)
    (maxRetries : Nat) : Nat → Nat → ChunkRun
  | 0, _ => { result := .ok [], attempts := 0, sleeps := [] }
  | remaining + 1, attempt =>
    match oracle attempt with
    | .reply status errorText json =>
      if status ≠ 200 then
        if 0 < remaining then
          let r := attemptLoop oracle base_url maxRetries remaining (attempt + 1)
          { result := r.result, attempts := r.attempts + 1,
            sleeps := 2 ^ attempt :: r.sleeps }
        else
          { result := .error (.apiError ((("API request failed after ").data)
              ++ pyNatStr maxRetries ++ ((" attempts: ").data) ++ errorText)),
            attempts := 1, sleeps := [] }
      else
        match successContent json base_url with
        | .ok content => { result := .ok content, attempts := 1, sleeps := [] }
        | .error _ =>
          if 0 < remaining then
            let r := attemptLoop oracle base_url maxRetries remaining (attempt + 1)
            { result := r.result, attempts := r.attempts + 1,
              sleeps := 2 ^ attempt :: r.sleeps }
          else { result := .ok [], attempts := 1, sleeps := [] }
    | .transportError =>
      if 0 < remaining then
        let r := attemptLoop oracle base_url maxRetries remaining (attempt + 1)
        { result := r.result, attempts := r.attempts + 1,
          sleeps := 2 ^ attempt :: r.sleeps }
      else { result := .ok [], attempts := 1, sleeps := [] }
    | .cancelled => { result := .ok [], attempts := 1, sleeps := [] }

/-- `process_chunk(chunk, template, config, max_retries=3)` from api.py
lines 120-218 (same function in core.py lines 338-413): a chunk that is
empty after stripping returns `""` with no attempt; otherwise the retry
loop runs from attempt 0.  The four required config keys are fields of the
embedded config, so the key-presence check of lines 141-144 passes; the
prompt template only shapes the request payload, which the oracle
abstracts. -/
def process_chunk (chunk : PyStr) (oracle : Nat → AttemptOutcome)
    (base_url : PyStr) (maxRetries : Nat) : ChunkRun :=
  if pyStrip chunk = [] then { result := .ok [], attempts := 0, sleeps := [] }
  else attemptLoop oracle base_url maxRetries maxRetries 0

/-- C3 counterexample: with every attempt answering HTTP 500 and the
default budget of 3, `process_chunk` raises `APIError` (later collected by
`asyncio.gather`) instead of returning the empty string the claim
asserts. -/
theorem process_chunk_non2xx_cex :
    (process_chunk (("hello").data) (fun _ => .reply 500 (("boom").data) [])
        [] 3).result
      = .error (.apiError (("API request failed after 3 attempts: boom").data))
    ∧ (process_chunk (("hello").data) (fun _ => .reply 500 (("boom").data) [])
        [] 3).result ≠ .ok [] := by
  have h1 : (process_chunk (("hello").data)
      (fun _ => .reply 500 (("boom").data) []) [] 3).result
      = .error (.apiError
          (("API request failed after 3 attempts: boom").data)) := rfl
  refine ⟨h1, ?_⟩
  rw [h1]
  intro h
  exact Except.noConfusion h

theorem attemptLoop_non200 (oracle : Nat → AttemptOutcome) (base_url : PyStr)
    (maxRetries : Nat)
    (h : ∀ a, ∃ st et js, oracle a = .reply st et js ∧ st ≠ 200) :
    ∀ remaining attempt, 1 ≤ remaining →
      (attemptLoop oracle base_url maxRetries remaining attempt).attempts
          = remaining ∧
      (attemptLoop oracle base_url maxRetries remaining attempt).sleeps
          = (List.range' attempt (remaining - 1)).map (fun a => 2 ^ a) ∧
      ∃ msg, (attemptLoop oracle base_url maxRetries remaining attempt).result
          = .error (.apiError msg) := by
  intro remaining
  induction remaining with
  | zero => intro attempt h1; omega
  | succ r ih =>
    intro attempt _
    obtain ⟨st, et, js, hor, hst⟩ := h attempt
    cases r with
    | zero =>
      simp only [attemptLoop, hor, if_pos hst, Nat.lt_irrefl, if_neg
        (by omega : ¬ (0 : Nat) < 0)]
      exact ⟨rfl, rfl, _, rfl⟩
    | succ r2 =>
      obtain ⟨ha, hs, msg, hr⟩ := ih (attempt + 1) (by omega)
      rw [attemptLoop, hor]
      simp only [if_pos hst, if_pos (show (0 : Nat) < r2 + 1 by omega)]
      refine ⟨by rw [ha], ?_, msg, hr⟩
      rw [hs]
      have h3 : (r2 + 1 + 1) - 1 = (r2 + 1 - 1) + 1 := by omega
      rw [h3, List.range'_succ, List.map_cons]

/-- C3 amended: for a chunk whose endpoint returns a non-2xx status on
every attempt, `process_chunk` makes exactly the configured retry budget
of attempts, sleeping `2^attempt` seconds between consecutive attempts,
and then raises `APIError` for that chunk; `process_chunks` collects the
exception from `asyncio.gather(..., return_exceptions=True)` and drops the
chunk, so the batch does not fail.  (The claim's "yields an empty string"
holds for transport exceptions, but the non-2xx path raises; see the
counterexample.) -/
theorem process_chunk_non2xx_exhausts (chunk : PyStr) (base_url : PyStr)
    (oracle : Nat → AttemptOutcome) (maxRetries : Nat)
    (hchunk : pyStrip chunk ≠ []) (hm : 1 ≤ maxRetries)
    (h : ∀ a, ∃ st et js, oracle a = .reply st et js ∧ st ≠ 200) :
    (process_chunk chunk oracle base_url maxRetries).attempts = maxRetries ∧
    (process_chunk chunk oracle base_url maxRetries).sleeps
        = (List.range (maxRetries - 1)).map (fun a => 2 ^ a) ∧
    ∃ msg, (process_chunk chunk oracle base_url maxRetries).result
        = .error (.apiError msg) := by
  unfold process_chunk
  rw [if_neg hchunk]
  obtain ⟨ha, hs, msg, hr⟩ :=
    attemptLoop_non200 oracle base_url maxRetries h maxRetries 0 hm
  exact ⟨ha, by rw [hs, List.range_eq_range'], msg, hr⟩

/-- Witness for C3 (amended) at the concrete always-500 oracle with the
default budget of three attempts. -/
theorem process_chunk_non2xx_exhausts_witness :
    (process_chunk (("hi").data) (fun _ => .reply 500 (("err").data) [])
        [] 3).attempts = 3 ∧
    (process_chunk (("hi").data) (fun _ => .reply 500 (("err").data) [])
        [] 3).sleeps = (List.range 2).map (fun a => 2 ^ a) ∧
    ∃ msg, (process_chunk (("hi").data) (fun _ => .reply 500 (("err").data) [])
        [] 3).result = .error (.apiError msg) :=
  process_chunk_non2xx_exhausts (("hi").data) [] _ 3 (by decide) (by decide)
    (fun a => ⟨500, (("err").data), [], rfl, by decide⟩)

/-- The task list of `process_chunks` (api.py lines 259-263): one task per
chunk whose text is non-empty after stripping, in input order. -/
def dispatchTasks (chunks : List (PyStr × PyStr)) : List (PyStr × PyStr) :=
  chunks.filter (fun cd => !(pyStrip cd.2).isEmpty)

/-- The body of `process_with_semaphore` for task `i` (api.py lines
248-257): run `process_chunk` on the task's chunk text and pair the
returned summary with the task's timestamp; a raised exception (APIError)
propagates to `asyncio.gather` as the task's outcome.  `oracle i` is the
network behaviour seen by task `i`'s attempts. -/
def taskRun (tasks : List (PyStr × PyStr))
    (oracle : Nat → Nat → AttemptOutcome) (base_url : PyStr) (i : Nat) :
    Except PyExc (PyStr × PyStr) :=
  match tasks[i]? with
  | some td =>
    match (process_chunk td.2 (oracle i) base_url 3).result with
    | .ok s => .ok (td.1, s)
    | .error e => .error e
  | none => .error .indexError

/-- Slot array written by completing tasks: each completion stores task
`i`'s outcome in slot `i`, in completion order `order`. -/
def fillSlots (outcome : Nat → Except PyExc (PyStr × PyStr))
    (order : List Nat) : Nat → Option (Except PyExc (PyStr × PyStr)) :=
  order.foldl (fun acc i => fun j => if j = i then some (outcome i) else acc j)
    (fun _ => none)

/-- `await asyncio.gather(*tasks, return_exceptions=True)` (api.py line
270): tasks complete in the order `order`, each filling its own slot, and
gather hands back the slots in task order 0..n-1 regardless of completion
order. -/
def gatherResults (outcome : Nat → Except PyExc (PyStr × PyStr))
    (order : List Nat) (n : Nat) : List (Except PyExc (PyStr × PyStr)) :=
  (List.range n).map (fun i => (fillSlots outcome order i).getD (.error .indexError))

/-- `process_chunks(chunks, template, config)` from api.py lines 221-289,
with the concurrent completion order made explicit as `order` (the task
indices in the order their remote calls finish).  An empty task list
raises `APIError` (line 266); exceptions collected by gather are logged
and dropped, and results whose summary is empty or whitespace-only are
dropped (lines 272-277). -/
def process_chunks (chunks : List (PyStr × PyStr))
    (oracle : Nat → Nat → AttemptOutcome) (base_url : PyStr)
    (order : List Nat) : Except PyExc (List (PyStr × PyStr)) :=
  let tasks := dispatchTasks chunks
  if tasks.isEmpty then
    .error (.apiError (("No valid content chunks to process").data))
  else
    .ok ((gatherResults (taskRun tasks oracle base_url) order
        tasks.length).filterMap (fun r =>
      match r with
      | .error _ => none
      | .ok ts => if ts.2 ≠ [] ∧ pyStrip ts.2 ≠ [] then some ts else none))

theorem fillSlots_foldl (outcome : Nat → Except PyExc (PyStr × PyStr)) :
    ∀ (order : List Nat)
      (init : Nat → Option (Except PyExc (PyStr × PyStr))) (j : Nat),
      order.foldl
        (fun acc i => fun j' => if j' = i then some (outcome i) else acc j')
        init j
        = if j ∈ order then some (outcome j) else init j
  | [], init, j => by simp
  | i :: rest, init, j => by
    simp only [List.foldl_cons]
    rw [fillSlots_foldl outcome rest _ j]
    by_cases hj : j ∈ rest
    · simp [hj]
    · by_cases hji : j = i
      · subst hji
        simp [hj]
      · simp [hj, hji]

theorem fillSlots_eq (outcome : Nat → Except PyExc (PyStr × PyStr))
    (order : List Nat) (j : Nat) :
    fillSlots outcome order j
      = if j ∈ order then some (outcome j) else none := by
  unfold fillSlots
  exact fillSlots_foldl outcome order _ j

theorem gatherResults_perm (outcome : Nat → Except PyExc (PyStr × PyStr))
    (order : List Nat) (n : Nat) (hperm : order.Perm (List.range n)) :
    gatherResults outcome order n = (List.range n).map outcome := by
  unfold gatherResults
  apply List.map_congr_left
  intro i hi
  have hmem : i ∈ order := hperm.mem_iff.mpr hi
  rw [fillSlots_eq, if_pos hmem]
  rfl

theorem process_chunks_perm_eq (chunks : List (PyStr × PyStr))
    (oracle : Nat → Nat → AttemptOutcome) (base_url : PyStr)
    (order : List Nat)
    (hperm : order.Perm (List.range (dispatchTasks chunks).length))
    (htasks : dispatchTasks chunks ≠ []) :
    process_chunks chunks oracle base_url order
      = .ok (((List.range (dispatchTasks chunks).length).map
          (taskRun (dispatchTasks chunks) oracle base_url)).filterMap
          (fun r => match r with
            | .error _ => none
            | .ok ts => if ts.2 ≠ [] ∧ pyStrip ts.2 ≠ [] then some ts
                else none)) := by
  unfold process_chunks
  rw [if_neg (by simpa [List.isEmpty_iff] using htasks)]
  rw [gatherResults_perm _ order _ hperm]

/-- C2: for every chunk list and every completion order of the per-chunk
remote calls, `process_chunks` returns its kept results in the original
input order of the tasks: the output equals the in-order filtered task
outcomes, so two runs differing only in completion order are equal. -/
theorem process_chunks_order_independent (chunks : List (PyStr × PyStr))
    (oracle : Nat → Nat → AttemptOutcome) (base_url : PyStr)
    (order : List Nat)
    (hperm : order.Perm (List.range (dispatchTasks chunks).length))
    (htasks : dispatchTasks chunks ≠ []) :
    process_chunks chunks oracle base_url order
      = .ok (((List.range (dispatchTasks chunks).length).map
          (taskRun (dispatchTasks chunks) oracle base_url)).filterMap
          (fun r => match r with
            | .error _ => none
            | .ok ts => if ts.2 ≠ [] ∧ pyStrip ts.2 ≠ [] then some ts
                else none)) :=
  process_chunks_perm_eq chunks oracle base_url order hperm htasks

/-- Witness for C2: three chunks (one empty, hence two tasks) with the
completion order reversed; the kept results are nevertheless the in-order
outcomes. -/
theorem process_chunks_order_independent_witness :
    process_chunks
        [(("t1").data, ("a").data), (("t2").data, []),
          (("t3").data, ("b").data)]
        (fun _ _ => .transportError) [] [1, 0]
      = .ok (((List.range (dispatchTasks
            [(("t1").data, ("a").data), (("t2").data, []),
              (("t3").data, ("b").data)]).length).map
          (taskRun (dispatchTasks
            [(("t1").data, ("a").data), (("t2").data, []),
              (("t3").data, ("b").data)])
            (fun _ _ => .transportError) [])).filterMap
          (fun r => match r with
            | .error _ => none
            | .ok ts => if ts.2 ≠ [] ∧ pyStrip ts.2 ≠ [] then some ts
                else none)) :=
  process_chunks_order_independent _ _ _ [1, 0] (by decide) (by decide)

/-- Whether task `i`'s outcome survives the result filter of
`process_chunks` (api.py line 276): no collected exception, and a summary
that is non-empty and not whitespace-only. -/
def keptTask (tasks : List (PyStr × PyStr))
    (oracle : Nat → Nat → AttemptOutcome) (base_url : PyStr) (i : Nat) :
    Bool :=
  match taskRun tasks oracle base_url i with
  | .ok ts => decide (ts.2 ≠ [] ∧ pyStrip ts.2 ≠ [])
  | .error _ => false

/-- The dispatch-and-assembly stage of `main` (core.py lines 534-539):
run the chunk dispatch, raise `Exception("No valid summaries generated")`
when it yields no summaries, and otherwise return the assembled text. -/
def mainDispatch (chunks : List (PyStr × PyStr))
    (oracle : Nat → Nat → AttemptOutcome) (base_url : PyStr)
    (config : AssembleConfig) (order : List Nat) : Except PyExc PyStr :=
  match process_chunks chunks oracle base_url order with
  | .error e => .error e
  | .ok summaries =>
    if summaries.isEmpty then
      .error (.exception (("No valid summaries generated").data))
    else .ok (format_summary_with_timestamps summaries config)

/-- C4: the whole dispatch fails only when zero tasks produce non-empty
results: if at least one task's outcome is kept, `main`'s dispatch stage
returns an assembled summary (partial success is not an error); if every
task's outcome is dropped — for example because every reply contains an
insufficient-context phrase — it raises the descriptive "No valid
summaries generated" error instead of returning an empty string. -/
theorem mainDispatch_failure_semantics (chunks : List (PyStr × PyStr))
    (oracle : Nat → Nat → AttemptOutcome) (base_url : PyStr)
    (config : AssembleConfig) (order : List Nat)
    (hperm : order.Perm (List.range (dispatchTasks chunks).length))
    (htasks : dispatchTasks chunks ≠ []) :
    ((∃ i, i < (dispatchTasks chunks).length ∧
        keptTask (dispatchTasks chunks) oracle base_url i = true) →
      ∃ out, mainDispatch chunks oracle base_url config order = .ok out) ∧
    ((∀ i, i < (dispatchTasks chunks).length →
        keptTask (dispatchTasks chunks) oracle base_url i = false) →
      mainDispatch chunks oracle base_url config order
        = .error (.exception (("No valid summaries generated").data))) := by
  have hf : ∀ i, (match taskRun (dispatchTasks chunks) oracle base_url i with
        | .error _ => none
        | .ok ts => if ts.2 ≠ [] ∧ pyStrip ts.2 ≠ [] then some ts else none)
        = none
      ↔ keptTask (dispatchTasks chunks) oracle base_url i = false := by
    intro i
    unfold keptTask
    cases taskRun (dispatchTasks chunks) oracle base_url i with
    | error e => simp
    | ok ts =>
      by_cases h : ts.2 ≠ [] ∧ pyStrip ts.2 ≠ [] <;> simp [h]
  have hkey := process_chunks_perm_eq chunks oracle base_url order hperm htasks
  set L := ((List.range (dispatchTasks chunks).length).map
      (taskRun (dispatchTasks chunks) oracle base_url)).filterMap
      (fun r => match r with
        | .error _ => none
        | .ok ts => if ts.2 ≠ [] ∧ pyStrip ts.2 ≠ [] then some ts else none)
    with hL
  have hred : mainDispatch chunks oracle base_url config order
      = if L.isEmpty then
          .error (.exception (("No valid summaries generated").data))
        else .ok (format_summary_with_timestamps L config) := by
    unfold mainDispatch
    rw [hkey]
  constructor
  · rintro ⟨i, hi, hkept⟩
    have hne : L ≠ [] := by
      intro hnil
      rw [hL] at hnil
      have h2 := (List.filterMap_eq_nil.mp hnil)
        (taskRun (dispatchTasks chunks) oracle base_url i)
        (List.mem_map_of_mem _ (List.mem_range.mpr hi))
      rw [hf i] at h2
      rw [h2] at hkept
      exact Bool.noConfusion hkept
    rw [hred, if_neg (by simpa [List.isEmpty_iff] using hne)]
    exact ⟨_, rfl⟩
  · intro hall
    have hnil : L = [] := by
      rw [hL]
      apply List.filterMap_eq_nil.mpr
      intro a ha
      obtain ⟨i, hi, rfl⟩ := List.mem_map.mp ha
      exact (hf i).mpr (hall i (List.mem_range.mp hi))
    rw [hred, if_pos (by simp [hnil])]

/-- Witness for C4: a single chunk whose reply always contains the
insufficient-context phrase "please provide"; the dispatch stage raises
the descriptive error rather than returning an empty string. -/
theorem mainDispatch_failure_semantics_witness :
    mainDispatch [([], ("hello").data)]
        (fun _ _ => .reply 200 []
          [(("choices").data, .arr [.obj [(("message").data, .obj
            [(("content").data,
              .str ("please provide more details").data)])]])])
        [] ⟨[], []⟩ [0]
      = .error (.exception (("No valid summaries generated").data)) :=
  (mainDispatch_failure_semantics [([], ("hello").data)]
      (fun _ _ => .reply 200 []
        [(("choices").data, .arr [.obj [(("message").data, .obj
          [(("content").data,
            .str ("please provide more details").data)])]])])
      [] ⟨[], []⟩ [0] (by decide) (by decide)).2 (by decide)

/-- Lifecycle phase of one chunk task with respect to its network call:
created but not yet holding the semaphore, holding it with the request in
flight, or finished with its slot released. -/
inductive TaskPhase where
  | pending
  | inflight
  | taskDone
deriving DecidableEq

/-- State of one `process_chunks` dispatch: the semaphore's free slot
count and each task's phase. -/
structure DispatchState where
  free : Nat
  phases : List TaskPhase

/-- Scheduling steps of the `async with semaphore` block in
`process_with_semaphore` (api.py lines 248-257): a pending task enters
only when a free slot exists — the acquire decrements the count before the
network call is issued — and a finishing task releases its slot
unconditionally on completion. -/
inductive DispatchStep : DispatchState → DispatchState → Prop where
  | acquire (s : DispatchState) (i k : Nat)
      (hi : s.phases.get? i = some .pending) (hfree : s.free = k + 1) :
      DispatchStep s { free := k, phases := s.phases.set i .inflight }
  | release (s : DispatchState) (i : Nat)
      (hi : s.phases.get? i = some .inflight) :
      DispatchStep s { free := s.free + 1, phases := s.phases.set i .taskDone }

/-- Initial state: `asyncio.Semaphore(limit)` full, with all `n` created
tasks pending (api.py lines 238, 259-263). -/
def initState (limit n : Nat) : DispatchState :=
  { free := limit, phases := List.replicate n .pending }

/-- Number of requests currently in flight. -/
def inflightCount (s : DispatchState) : Nat :=
  (s.phases.filter (fun p => p == .inflight)).length

/-- States reachable during one dispatch of `n` tasks under concurrency
limit `limit`. -/
def DispatchReachable (limit n : Nat) (s : DispatchState) : Prop :=
  Relation.ReflTransGen DispatchStep (initState limit n) s

theorem length_filter_set (p : TaskPhase → Bool) :
    ∀ (l : List TaskPhase) (i : Nat) (old new : TaskPhase),
      l.get? i = some old →
      ((l.set i new).filter p).length + (if p old then 1 else 0)
        = (l.filter p).length + (if p new then 1 else 0)
  | [], i, old, new, h => by simp at h
  | x :: xs, 0, old, new, h => by
    have hxo : old = x := by
      simp only [List.get?] at h
      exact (Option.some.inj h).symm
    subst hxo
    by_cases hpo : p old <;> by_cases hpn : p new <;>
      simp [List.set, List.filter, hpo, hpn]
  | x :: xs, i + 1, old, new, h => by
    simp only [List.get?] at h
    have ih := length_filter_set p xs i old new h
    by_cases hpx : p x <;> simp [List.set, List.filter, hpx] <;> omega

theorem dispatchStep_invariant {s t : DispatchState} (h : DispatchStep s t) :
    inflightCount t + t.free = inflightCount s + s.free := by
  cases h with
  | acquire i k hi hfree =>
    have hc := length_filter_set (fun p => p == .inflight) s.phases i
      .pending .inflight hi
    simp only [inflightCount] at *
    simp at hc
    omega
  | release i hi =>
    have hc := length_filter_set (fun p => p == .inflight) s.phases i
      .inflight .taskDone hi
    simp only [inflightCount] at *
    simp at hc
    omega

theorem initState_inflight (limit n : Nat) :
    inflightCount (initState limit n) = 0 := by
  simp [inflightCount, initState, List.filter_replicate]

theorem dispatchReachable_invariant (limit n : Nat) (s : DispatchState)
    (h : DispatchReachable limit n s) :
    inflightCount s + s.free = limit := by
  induction h with
  | refl =>
    rw [initState_inflight]
    simp [initState]
  | tail hr hstep ih => rw [dispatchStep_invariant hstep, ih]

/-- C5: for every task count `n` and concurrency limit `limit`, at no
reachable point of the dispatch are more than `limit` requests in flight:
each task holds a semaphore slot for exactly the duration of its network
call, and the slot count bounds the in-flight count. -/
theorem dispatch_inflight_bounded (limit n : Nat) (s : DispatchState)
    (h : DispatchReachable limit n s) : inflightCount s ≤ limit := by
  have hinv := dispatchReachable_invariant limit n s h
  omega

/-- Witness for C5: with limit 2 and three tasks, the state after two
acquires is reachable and has two requests in flight, within the bound. -/
theorem dispatch_inflight_bounded_witness :
    DispatchReachable 2 3
      { free := 0, phases := [.inflight, .inflight, .pending] } ∧
    inflightCount
      { free := 0, phases := [.inflight, .inflight, .pending] } ≤ 2 := by
  have h1 : DispatchStep (initState 2 3)
      { free := 1, phases := [.inflight, .pending, .pending] } := by
    have := DispatchStep.acquire (initState 2 3) 0 1 (by decide) (by decide)
    simpa [initState] using this
  have h2 : DispatchStep { free := 1, phases := [.inflight, .pending, .pending] }
      { free := 0, phases := [.inflight, .inflight, .pending] } := by
    have := DispatchStep.acquire
      { free := 1, phases := [.inflight, .pending, .pending] } 1 0
      (by decide) (by decide)
    simpa using this
  have hreach : DispatchReachable 2 3
      { free := 0, phases := [.inflight, .inflight, .pending] } :=
    Relation.ReflTransGen.tail (Relation.ReflTransGen.tail
      Relation.ReflTransGen.refl h1) h2
  exact ⟨hreach, dispatch_inflight_bounded 2 3 _ hreach⟩

end Summarize
